import Mathlib

/-!
Shallow embedding of davegarred/transactions (Rust).

Source files embedded: src/amount.rs, src/transaction.rs, src/client.rs,
src/bank.rs, src/error.rs.

Modelling decisions, faithful to the source:

* `Amount(i64)` (src/amount.rs) stores a monetary value scaled by 10^4.  It is
  embedded as `Int`; `Add`/`Sub` on `Amount` are integer addition/subtraction.
  The Rust accessors `available()`, `hold()`, `total()` convert the scaled
  integer to `f64` by dividing by 10000.0, and the withdrawal check compares
  two such `f64` values.  Division of exactly-representable integers by the
  common positive constant 10000.0 is monotone and injective on the range the
  program works in (|scaled| < 2^53, where `i64 as f64` is exact), so
  equalities and order comparisons of those `f64` values coincide with the
  corresponding comparisons of the scaled integers; the embedding therefore
  works directly with the scaled integers.
* `HashMap<TransactionId, TransactionDetails>` is embedded as an association
  list.  `insert` is modelled as "erase the key, then cons the new pair",
  which has exactly the key/value semantics of `HashMap::insert` (replace the
  binding if present, add it otherwise); `remove` erases the binding.  A
  `HashMap` never holds two bindings for one key, which for the list model is
  the explicit well-formedness hypothesis `keysNodup`.  Map contents are
  compared extensionally (via `lookupTx`), as `HashMap` has no ordering.
* `Client::process_transaction` (src/client.rs lines 55-108) is embedded
  branch by branch, including the early return on `locked`, the
  insufficient-funds early return, and the `remove`/`insert` moves for
  dispute, resolve and chargeback.  The `eprintln!` diagnostics are I/O only
  and have no effect on the state.
* `Bank::process_file` (src/bank.rs lines 18-36) enumerates the data rows of
  the CSV file (0-based, header excluded) and stops at the first row that the
  csv reader fails to yield or that fails conversion to a `Transaction`,
  returning `TransactionError::FileTransaction(line, msg)`.  The csv/serde
  machinery is an external collaborator: a raw row is embedded as
  `Except String RawRecord`, where the `error` case stands for a record the
  csv reader or the serde deserializer rejected, and `RawRecord` carries the
  already-decoded fields.  The raw `amount` field is carried as the scaled
  integer the `From<f64> for Amount` conversion would produce.  The debug
  formatting of the amount in the error message follows Rust's
  `Option<f64>` `Debug` shape with the scaled integer in place of the float.
-/

namespace Transactions

/-- Scaled fixed-point monetary value: Rust `Amount(i64)`, `value * 10000`
rounded to the nearest integer (src/amount.rs). -/
abbrev Amount := Int

/-- Rust `type TransactionId = u32` (src/main.rs); only equality of ids is
ever used. -/
abbrev TransactionId := Nat

/-- Rust `type ClientId = u16` (src/main.rs). -/
abbrev ClientId := Nat

/-- The transaction payload enum (`TransactionDetails` in src/client.rs,
`TransactionType` in src/transaction.rs — the same five-variant enum). -/
inductive TransactionDetails where
  | deposit (amount : Amount)
  | withdrawal (amount : Amount)
  | dispute
  | resolve
  | chargeback
deriving DecidableEq

/-- Rust `struct Transaction` (src/transaction.rs). -/
structure Transaction where
  transaction_details : TransactionDetails
  client : ClientId
  transaction_id : TransactionId
deriving DecidableEq

/-- Association-list model of `HashMap<TransactionId, TransactionDetails>`. -/
abbrev TxMap := List (TransactionId × TransactionDetails)

/-- `HashMap::get` / the lookup side of `HashMap::remove`: the value bound to
`k`, if any (first binding in the list model). -/
def lookupTx : TxMap → TransactionId → Option TransactionDetails
  | [], _ => none
  | (k', v) :: rest, k => if k' = k then some v else lookupTx rest k

/-- `HashMap::remove`: drop the binding for `k` (the first one in the list
model), if any. -/
def eraseTx : TxMap → TransactionId → TxMap
  | [], _ => []
  | (k', v) :: rest, k => if k' = k then rest else (k', v) :: eraseTx rest k

/-- `HashMap::insert`: bind `k` to `v`, replacing any previous binding. -/
def insertTx (m : TxMap) (k : TransactionId) (v : TransactionDetails) : TxMap :=
  (k, v) :: eraseTx m k

/-- The keys of a map. -/
def keysTx (m : TxMap) : List TransactionId := m.map Prod.fst

/-- A `HashMap` binds each key at most once; states coming from the Rust
code always satisfy this. -/
def keysNodup (m : TxMap) : Prop := (keysTx m).Nodup

instance (m : TxMap) : Decidable (keysNodup m) := by
  unfold keysNodup; infer_instance

/-- Rust `struct Client` (src/client.rs lines 8-13). -/
structure Client where
  id : ClientId
  transactions : TxMap
  disputed_transactions : TxMap
  locked : Bool
deriving DecidableEq

/-- `Client::new` (src/client.rs): empty maps, unlocked. -/
def Client.new (id : ClientId) : Client :=
  { id := id, transactions := [], disputed_transactions := [], locked := false }

/-- `Client::sum_transactions` (src/client.rs lines 112-129): fold over the
stored entries, adding deposit amounts, subtracting withdrawal amounts and
skipping the control variants. -/
def sum_transactions : TxMap → Amount
  | [] => 0
  | (_, .deposit a) :: rest => a + sum_transactions rest
  | (_, .withdrawal a) :: rest => -a + sum_transactions rest
  | (_, _) :: rest => sum_transactions rest

/-- `Client::available` (src/client.rs): the scaled value whose `f64` image
the Rust accessor returns. -/
def Client.available (c : Client) : Amount :=
  sum_transactions c.transactions

/-- `Client::hold` (src/client.rs). -/
def Client.hold (c : Client) : Amount :=
  sum_transactions c.disputed_transactions

/-- `Client::total` (src/client.rs): sum over both maps. -/
def Client.total (c : Client) : Amount :=
  sum_transactions c.transactions + sum_transactions c.disputed_transactions

/-- `Client::process_transaction` (src/client.rs lines 55-108). -/
def Client.process_transaction (c : Client) (t : Transaction) : Client :=
  if c.locked then c
  else
    match t.transaction_details with
    | .deposit _ =>
        { c with transactions := insertTx c.transactions t.transaction_id t.transaction_details }
    | .withdrawal amount =>
        if c.available < amount then c
        else
          { c with transactions := insertTx c.transactions t.transaction_id t.transaction_details }
    | .dispute =>
        match lookupTx c.transactions t.transaction_id with
        | some previous_transaction =>
            { c with
              transactions := eraseTx c.transactions t.transaction_id,
              disputed_transactions :=
                insertTx c.disputed_transactions t.transaction_id previous_transaction }
        | none => c
    | .resolve =>
        match lookupTx c.disputed_transactions t.transaction_id with
        | some previous_transaction =>
            { c with
              disputed_transactions := eraseTx c.disputed_transactions t.transaction_id,
              transactions := insertTx c.transactions t.transaction_id previous_transaction }
        | none => c
    | .chargeback =>
        match lookupTx c.disputed_transactions t.transaction_id with
        | some _ =>
            { c with
              disputed_transactions := eraseTx c.disputed_transactions t.transaction_id,
              locked := true }
        | none => c

/-- The signed contribution of one stored entry to a balance, as the spec
words it: deposits positive, withdrawals negative, control variants are never
stored but contribute nothing. -/
def signedValue : TransactionDetails → Int
  | .deposit a => a
  | .withdrawal a => -a
  | _ => 0

/-- Balance as the spec describes it: the signed sum over the entries of a
map.  Compared against `sum_transactions` in claim C7. -/
def specSignedSum (m : TxMap) : Int :=
  (m.map (fun p => signedValue p.2)).sum

/-- Rust `u8::to_ascii_lowercase` on one character: ASCII uppercase letters
are shifted to lowercase, everything else is untouched. -/
def asciiToLowerChar (c : Char) : Char :=
  if 'A' ≤ c ∧ c ≤ 'Z' then Char.ofNat (c.toNat + 32) else c

/-- Rust `str::to_ascii_lowercase` (used by the `TryFrom` conversion in
src/transaction.rs). -/
def toAsciiLowercase (s : String) : String :=
  ⟨s.data.map asciiToLowerChar⟩

/-- Debug rendering of the optional raw amount, following Rust's
`{:?}` on `Option<f64>` (with the scaled integer standing in for the float). -/
def amountDebug : Option Amount → String
  | some a => "Some(" ++ toString a ++ ")"
  | none => "None"

/-- `TryFrom<(&str, Option<f64>)> for TransactionType`
(src/transaction.rs lines 32-48): lowercases the type string, requires an
amount exactly for deposit/withdrawal, and rejects everything else with a
message naming the offending type and amount. -/
def TransactionType.tryFrom (transaction_type : String) (amount : Option Amount) :
    Except String TransactionDetails :=
  match toAsciiLowercase transaction_type, amount with
  | "deposit", some a => .ok (.deposit a)
  | "withdrawal", some a => .ok (.withdrawal a)
  | "dispute", none => .ok .dispute
  | "resolve", none => .ok .resolve
  | "chargeback", none => .ok .chargeback
  | _, _ =>
      .error ("Unknown transaction type: " ++ transaction_type ++ ", amount: "
        ++ amountDebug amount)

/-- The fields the serde step decodes out of one CSV data row
(`CsvDeserializedTransaction`, src/transaction.rs). -/
structure RawRecord where
  transaction_type : String
  client : ClientId
  transaction_id : TransactionId
  amount : Option Amount
deriving DecidableEq

/-- `TryFrom<StringRecord> for Transaction` (src/transaction.rs): convert the
decoded fields into a typed transaction, or propagate the type error. -/
def Transaction.tryFrom (r : RawRecord) : Except String Transaction :=
  match TransactionType.tryFrom r.transaction_type r.amount with
  | .ok transaction_type => .ok ⟨transaction_type, r.client, r.transaction_id⟩
  | .error e => .error e

/-- One raw row as `rdr.records()` yields it: `error` stands for a record the
external csv reader or serde deserializer rejected (malformed row), carrying
its message. -/
abbrev CsvRow := Except String RawRecord

/-- `TransactionError` (src/error.rs), restricted to the per-row case
`FileTransaction(line, msg)`; `FileUnreadable` concerns opening the file and
never carries row data. -/
inductive TransactionError where
  | fileTransaction (line : Nat) (msg : String)
deriving DecidableEq

/-- Association-list model of the bank's `HashMap<ClientId, Client>`. -/
abbrev ClientMap := List (ClientId × Client)

/-- Lookup in the client map. -/
def lookupClient : ClientMap → ClientId → Option Client
  | [], _ => none
  | (k', v) :: rest, k => if k' = k then some v else lookupClient rest k

/-- Erase in the client map. -/
def eraseClient : ClientMap → ClientId → ClientMap
  | [], _ => []
  | (k', v) :: rest, k => if k' = k then rest else (k', v) :: eraseClient rest k

/-- Insert/replace in the client map. -/
def insertClient (m : ClientMap) (k : ClientId) (v : Client) : ClientMap :=
  (k, v) :: eraseClient m k

/-- Rust `struct Bank` (src/bank.rs). -/
structure Bank where
  clients : ClientMap
deriving DecidableEq

/-- `Bank::process_transaction` (src/bank.rs lines 40-53): look the client
up, creating a fresh one on first sight, and delegate. -/
def Bank.process_transaction (b : Bank) (t : Transaction) : Bank :=
  match lookupClient b.clients t.client with
  | some client => ⟨insertClient b.clients t.client (client.process_transaction t)⟩
  | none =>
      ⟨insertClient b.clients t.client ((Client.new t.client).process_transaction t)⟩

/-- The loop body of `Bank::process_file` (src/bank.rs lines 18-36) over the
enumerated data rows, `line` being the 0-based index `enumerate()` assigns to
the next row: the first row the reader rejects, or that fails conversion,
aborts the batch with `FileTransaction(line, msg)`. -/
def Bank.process_rows (b : Bank) : List CsvRow → Nat → Except TransactionError Bank
  | [], _ => .ok b
  | .error msg :: _, line => .error (.fileTransaction line msg)
  | .ok record :: rest, line =>
      match Transaction.tryFrom record with
      | .error msg => .error (.fileTransaction line msg)
      | .ok transaction => (b.process_transaction transaction).process_rows rest (line + 1)

/-- `Bank::process_file` on the sequence of data rows (the header row is
consumed by the reader and not enumerated). -/
def Bank.process_file (b : Bank) (rows : List CsvRow) : Except TransactionError Bank :=
  b.process_rows rows 0

/-- The error a single row produces, if any: either the reader's own error or
the conversion error.  `none` means the row converts to a transaction. -/
def rowError : CsvRow → Option String
  | .error msg => some msg
  | .ok record =>
      match Transaction.tryFrom record with
      | .error msg => some msg
      | .ok _ => none

/-! Map lemmas shared by the claim proofs. -/

theorem keysTx_cons (k : TransactionId) (v : TransactionDetails) (rest : TxMap) :
    keysTx ((k, v) :: rest) = k :: keysTx rest := rfl

theorem lookupTx_eraseTx_ne (m : TxMap) (k k' : TransactionId) (h : k' ≠ k) :
    lookupTx (eraseTx m k) k' = lookupTx m k' := by
  induction m with
  | nil => rfl
  | cons p rest ih =>
    obtain ⟨k'', v⟩ := p
    by_cases hk : k'' = k
    · subst hk
      simp [eraseTx, lookupTx, Ne.symm h]
    · simp [eraseTx, lookupTx, hk, ih]

theorem eraseTx_of_lookup_none (m : TxMap) (k : TransactionId)
    (h : lookupTx m k = none) : eraseTx m k = m := by
  induction m with
  | nil => rfl
  | cons p rest ih =>
    obtain ⟨k'', v⟩ := p
    by_cases hk : k'' = k
    · simp [lookupTx, hk] at h
    · simp [lookupTx, hk] at h
      simp [eraseTx, hk, ih h]

theorem sum_transactions_cons (k : TransactionId) (v : TransactionDetails) (rest : TxMap) :
    sum_transactions ((k, v) :: rest) = signedValue v + sum_transactions rest := by
  cases v <;> simp [sum_transactions, signedValue]

theorem sum_transactions_eraseTx (m : TxMap) (k : TransactionId) (v : TransactionDetails)
    (h : lookupTx m k = some v) :
    sum_transactions (eraseTx m k) = sum_transactions m - signedValue v := by
  induction m with
  | nil => simp [lookupTx] at h
  | cons p rest ih =>
    obtain ⟨k'', v'⟩ := p
    by_cases hk : k'' = k
    · simp [lookupTx, hk] at h
      subst h
      simp [eraseTx, hk, sum_transactions_cons]
    · simp [lookupTx, hk] at h
      simp [eraseTx, hk, sum_transactions_cons, ih h]
      ring

theorem sum_transactions_insertTx (m : TxMap) (k : TransactionId) (v : TransactionDetails) :
    sum_transactions (insertTx m k v) = signedValue v + sum_transactions (eraseTx m k) := by
  simp [insertTx, sum_transactions_cons]

theorem lookupTx_insertTx_self (m : TxMap) (k : TransactionId) (v : TransactionDetails) :
    lookupTx (insertTx m k v) k = some v := by
  simp [insertTx, lookupTx]

theorem lookupTx_insertTx_ne (m : TxMap) (k k' : TransactionId) (v : TransactionDetails)
    (h : k' ≠ k) : lookupTx (insertTx m k v) k' = lookupTx m k' := by
  rw [insertTx, lookupTx, if_neg (Ne.symm h)]
  exact lookupTx_eraseTx_ne m k k' h

theorem lookupTx_eq_none_of_not_mem (m : TxMap) (k : TransactionId)
    (h : k ∉ keysTx m) : lookupTx m k = none := by
  induction m with
  | nil => rfl
  | cons p rest ih =>
    obtain ⟨k'', v⟩ := p
    rw [keysTx_cons, List.mem_cons, not_or] at h
    simp [lookupTx, Ne.symm h.1, ih h.2]

theorem eraseTx_sublist (m : TxMap) (k : TransactionId) : (eraseTx m k).Sublist m := by
  induction m with
  | nil => simp [eraseTx]
  | cons p rest ih =>
    obtain ⟨k'', v⟩ := p
    by_cases hk : k'' = k
    · rw [eraseTx, if_pos hk]
      exact List.sublist_cons_self (k'', v) rest
    · rw [eraseTx, if_neg hk]
      exact List.Sublist.cons₂ (k'', v) ih

theorem keysNodup_eraseTx (m : TxMap) (k : TransactionId) (h : keysNodup m) :
    keysNodup (eraseTx m k) := by
  rw [keysNodup] at h ⊢
  exact List.Nodup.sublist (List.Sublist.map Prod.fst (eraseTx_sublist m k)) h

theorem not_mem_keys_eraseTx_self (m : TxMap) (k : TransactionId) (h : keysNodup m) :
    k ∉ keysTx (eraseTx m k) := by
  induction m with
  | nil => simp [eraseTx, keysTx]
  | cons p rest ih =>
    obtain ⟨k'', v⟩ := p
    rw [keysNodup, keysTx_cons, List.nodup_cons] at h
    by_cases hk : k'' = k
    · subst hk
      simpa [eraseTx] using h.1
    · have h2 := ih h.2
      rw [eraseTx, if_neg hk, keysTx_cons, List.mem_cons, not_or]
      exact ⟨fun hc => hk hc.symm, h2⟩

theorem lookupTx_eraseTx_self (m : TxMap) (k : TransactionId) (h : keysNodup m) :
    lookupTx (eraseTx m k) k = none :=
  lookupTx_eq_none_of_not_mem _ _ (not_mem_keys_eraseTx_self m k h)

theorem keysNodup_insertTx (m : TxMap) (k : TransactionId) (v : TransactionDetails)
    (h : keysNodup m) : keysNodup (insertTx m k v) := by
  rw [keysNodup, insertTx, keysTx_cons, List.nodup_cons]
  exact ⟨not_mem_keys_eraseTx_self m k h, keysNodup_eraseTx m k h⟩

theorem process_transaction_locked (c : Client) (t : Transaction) (h : c.locked = true) :
    c.process_transaction t = c := by
  simp [Client.process_transaction, h]

theorem foldl_process_transaction_locked (c : Client) (ts : List Transaction)
    (h : c.locked = true) : ts.foldl Client.process_transaction c = c := by
  induction ts with
  | nil => rfl
  | cons t rest ih =>
    rw [List.foldl_cons, process_transaction_locked c t h]
    exact ih

theorem sum_transactions_eq_specSignedSum (m : TxMap) :
    sum_transactions m = specSignedSum m := by
  induction m with
  | nil => rfl
  | cons p rest ih =>
    obtain ⟨k, v⟩ := p
    rw [sum_transactions_cons]
    simp [specSignedSum] at ih ⊢
    rw [ih]

/-- Claim C1: once `locked` is true, every subsequent sequence of
`process_transaction` calls leaves `available`, `hold`, `total` unchanged and
`locked` never reverts to false (in fact the whole state is fixed). -/
theorem locked_account_is_frozen (c : Client) (ts : List Transaction)
    (h : c.locked = true) :
    (ts.foldl Client.process_transaction c).available = c.available ∧
    (ts.foldl Client.process_transaction c).hold = c.hold ∧
    (ts.foldl Client.process_transaction c).total = c.total ∧
    (ts.foldl Client.process_transaction c).locked = true := by
  rw [foldl_process_transaction_locked c ts h]
  exact ⟨rfl, rfl, rfl, h⟩

/-- Concrete locked account used for the C1 witness. -/
def lockedClientW : Client :=
  { id := 7, transactions := [(1, .deposit 10000)], disputed_transactions := [], locked := true }

/-- Transactions thrown at the locked account in the C1 witness. -/
def lockedTsW : List Transaction :=
  [⟨.deposit 5000, 7, 2⟩, ⟨.withdrawal 2500, 7, 3⟩, ⟨.dispute, 7, 1⟩, ⟨.chargeback, 7, 1⟩]

/-- Witness for C1 at a concrete locked account. -/
theorem locked_account_is_frozen_witness :
    lockedClientW.locked = true ∧
    ((lockedTsW.foldl Client.process_transaction lockedClientW).available =
        lockedClientW.available ∧
      (lockedTsW.foldl Client.process_transaction lockedClientW).hold = lockedClientW.hold ∧
      (lockedTsW.foldl Client.process_transaction lockedClientW).total = lockedClientW.total ∧
      (lockedTsW.foldl Client.process_transaction lockedClientW).locked = true) :=
  ⟨rfl, locked_account_is_frozen lockedClientW lockedTsW rfl⟩

/-- Claim C2: a withdrawal whose amount is strictly greater than the current
available balance leaves the whole account state unchanged — in particular
the active map, `available`, `hold`, `total` and `locked`. -/
theorem withdrawal_insufficient_funds_rejected (c : Client) (a : Amount) (cl : ClientId)
    (id : TransactionId) (h : c.available < a) :
    c.process_transaction ⟨.withdrawal a, cl, id⟩ = c := by
  cases hl : c.locked with
  | true => simp [Client.process_transaction, hl]
  | false => simp [Client.process_transaction, hl, h]

/-- Concrete account used for the C2 witness: available is 0.5 units. -/
def clientW2 : Client :=
  { id := 9, transactions := [(1, .deposit 5000)], disputed_transactions := [], locked := false }

/-- Witness for C2: withdrawing 1.0 from an account holding 0.5 is a no-op. -/
theorem withdrawal_insufficient_funds_rejected_witness :
    clientW2.available < 10000 ∧
    clientW2.process_transaction ⟨.withdrawal 10000, 9, 2⟩ = clientW2 :=
  ⟨by decide, withdrawal_insufficient_funds_rejected clientW2 10000 9 2 (by decide)⟩

/-- Claim C3: on an unlocked account, a chargeback whose id is under dispute
removes that entry (and, the account now being locked, it stays removed),
decreases `total` and `hold` by the entry's signed amount, leaves `available`
unchanged, and sets `locked`. -/
theorem chargeback_disputed_locks_account (c : Client) (cl : ClientId) (id : TransactionId)
    (v : TransactionDetails) (hl : c.locked = false)
    (hfound : lookupTx c.disputed_transactions id = some v)
    (hnd : keysNodup c.disputed_transactions) :
    lookupTx (c.process_transaction ⟨.chargeback, cl, id⟩).disputed_transactions id = none ∧
    (c.process_transaction ⟨.chargeback, cl, id⟩).total = c.total - signedValue v ∧
    (c.process_transaction ⟨.chargeback, cl, id⟩).hold = c.hold - signedValue v ∧
    (c.process_transaction ⟨.chargeback, cl, id⟩).available = c.available ∧
    (c.process_transaction ⟨.chargeback, cl, id⟩).locked = true ∧
    ∀ ts : List Transaction,
      lookupTx (ts.foldl Client.process_transaction
        (c.process_transaction ⟨.chargeback, cl, id⟩)).disputed_transactions id = none := by
  have hc' : c.process_transaction ⟨.chargeback, cl, id⟩ =
      { c with disputed_transactions := eraseTx c.disputed_transactions id, locked := true } := by
    simp [Client.process_transaction, hl, hfound]
  rw [hc']
  have herase : lookupTx (eraseTx c.disputed_transactions id) id = none :=
    lookupTx_eraseTx_self _ _ hnd
  refine ⟨herase, ?_, ?_, rfl, rfl, ?_⟩
  · show sum_transactions c.transactions + sum_transactions (eraseTx c.disputed_transactions id)
      = c.total - signedValue v
    rw [sum_transactions_eraseTx _ _ _ hfound, Client.total]
    ring
  · show sum_transactions (eraseTx c.disputed_transactions id) = c.hold - signedValue v
    rw [sum_transactions_eraseTx _ _ _ hfound, Client.hold]
  · intro ts
    rw [foldl_process_transaction_locked _ ts rfl]
    exact herase

/-- Concrete account used for the C3 witness: 1.5 units under dispute at
id 1, 2.5 units active at id 2. -/
def clientW3 : Client :=
  { id := 1337, transactions := [(2, .deposit 25000)],
    disputed_transactions := [(1, .deposit 15000)], locked := false }

/-- Witness for C3 at a concrete disputed deposit. -/
theorem chargeback_disputed_locks_account_witness :
    clientW3.locked = false ∧
    lookupTx clientW3.disputed_transactions 1 = some (.deposit 15000) ∧
    keysNodup clientW3.disputed_transactions ∧
    (lookupTx (clientW3.process_transaction ⟨.chargeback, 1337, 1⟩).disputed_transactions 1
        = none ∧
      (clientW3.process_transaction ⟨.chargeback, 1337, 1⟩).total
        = clientW3.total - signedValue (.deposit 15000) ∧
      (clientW3.process_transaction ⟨.chargeback, 1337, 1⟩).hold
        = clientW3.hold - signedValue (.deposit 15000) ∧
      (clientW3.process_transaction ⟨.chargeback, 1337, 1⟩).available = clientW3.available ∧
      (clientW3.process_transaction ⟨.chargeback, 1337, 1⟩).locked = true ∧
      ∀ ts : List Transaction,
        lookupTx (ts.foldl Client.process_transaction
          (clientW3.process_transaction ⟨.chargeback, 1337, 1⟩)).disputed_transactions 1
          = none) :=
  ⟨rfl, rfl, by decide,
    chargeback_disputed_locks_account clientW3 1337 1 (.deposit 15000) rfl rfl (by decide)⟩

/-- Claim C4: on an unlocked account, a chargeback whose id is not under
dispute changes nothing at all, and in particular does not lock the
account. -/
theorem chargeback_not_disputed_is_noop (c : Client) (cl : ClientId) (id : TransactionId)
    (hl : c.locked = false) (h : lookupTx c.disputed_transactions id = none) :
    c.process_transaction ⟨.chargeback, cl, id⟩ = c ∧
    (c.process_transaction ⟨.chargeback, cl, id⟩).locked = false := by
  have heq : c.process_transaction ⟨.chargeback, cl, id⟩ = c := by
    simp [Client.process_transaction, hl, h]
  rw [heq]
  exact ⟨rfl, hl⟩

/-- Concrete account used for the C4 witness: two active deposits, nothing
under dispute. -/
def clientW4 : Client :=
  { id := 1337, transactions := [(1, .deposit 15000), (2, .deposit 25000)],
    disputed_transactions := [], locked := false }

/-- Witness for C4: a chargeback on the never-disputed id 1 is a no-op. -/
theorem chargeback_not_disputed_is_noop_witness :
    clientW4.locked = false ∧
    lookupTx clientW4.disputed_transactions 1 = none ∧
    (clientW4.process_transaction ⟨.chargeback, 1337, 1⟩ = clientW4 ∧
      (clientW4.process_transaction ⟨.chargeback, 1337, 1⟩).locked = false) :=
  ⟨rfl, rfl, chargeback_not_disputed_is_noop clientW4 1337 1 rfl rfl⟩

/-- Claim C7: `available` and `hold` are the signed sums the spec describes
(deposits positive, withdrawals negative) over the active and disputed maps,
and `total` is exactly their sum. -/
theorem balances_are_signed_sums (c : Client) :
    c.available = specSignedSum c.transactions ∧
    c.hold = specSignedSum c.disputed_transactions ∧
    c.total = c.available + c.hold :=
  ⟨sum_transactions_eq_specSignedSum _, sum_transactions_eq_specSignedSum _, rfl⟩

/-- Account state on which the C5 round-trip fails.  It is reachable from a
fresh account: deposit 1.0 at id 1, dispute id 1, deposit 2.0 at id 1 again —
the second deposit is inserted although id 1 is still under dispute, so id 1
is in both maps. -/
def clientC5x : Client :=
  { id := 1, transactions := [(1, .deposit 20000)],
    disputed_transactions := [(1, .deposit 10000)], locked := false }

/-- Counterexample to C5 as stated: on an unlocked account holding id 1 in
the active map (but also, reachably, in the disputed map), dispute then
resolve on id 1 does not restore the held balance — the dispute overwrites
the old disputed entry and the resolve then drops it. -/
theorem dispute_resolve_roundtrip_fails_on_shared_id :
    clientC5x.locked = false ∧
    lookupTx clientC5x.transactions 1 = some (.deposit 20000) ∧
    ((clientC5x.process_transaction ⟨.dispute, 1, 1⟩).process_transaction
      ⟨.resolve, 1, 1⟩).hold ≠ clientC5x.hold := by
  decide

/-- Claim C5 (amended): on an unlocked account whose maps have unique keys,
if the id is in the active map and not currently under dispute, dispute then
resolve restores the balances and the contents of both maps exactly; and
resolving an id that is not held is a no-op. -/
theorem dispute_resolve_roundtrip (c : Client) (cl cl' : ClientId) (id : TransactionId)
    (v : TransactionDetails) (hl : c.locked = false)
    (hactive : lookupTx c.transactions id = some v)
    (hheld : lookupTx c.disputed_transactions id = none)
    (hnd : keysNodup c.transactions) :
    (∀ k, lookupTx ((c.process_transaction ⟨.dispute, cl, id⟩).process_transaction
      ⟨.resolve, cl', id⟩).transactions k = lookupTx c.transactions k) ∧
    ((c.process_transaction ⟨.dispute, cl, id⟩).process_transaction
      ⟨.resolve, cl', id⟩).disputed_transactions = c.disputed_transactions ∧
    ((c.process_transaction ⟨.dispute, cl, id⟩).process_transaction
      ⟨.resolve, cl', id⟩).available = c.available ∧
    ((c.process_transaction ⟨.dispute, cl, id⟩).process_transaction
      ⟨.resolve, cl', id⟩).hold = c.hold ∧
    ((c.process_transaction ⟨.dispute, cl, id⟩).process_transaction
      ⟨.resolve, cl', id⟩).total = c.total ∧
    ((c.process_transaction ⟨.dispute, cl, id⟩).process_transaction
      ⟨.resolve, cl', id⟩).locked = false ∧
    ∀ (d : Client) (cl2 : ClientId) (id2 : TransactionId),
      lookupTx d.disputed_transactions id2 = none →
      d.process_transaction ⟨.resolve, cl2, id2⟩ = d := by
  have hnoop : ∀ (d : Client) (cl2 : ClientId) (id2 : TransactionId),
      lookupTx d.disputed_transactions id2 = none →
      d.process_transaction ⟨.resolve, cl2, id2⟩ = d := by
    intro d cl2 id2 h
    cases hdl : d.locked with
    | true => exact process_transaction_locked d _ hdl
    | false => simp [Client.process_transaction, hdl, h]
  have h1 : c.process_transaction ⟨.dispute, cl, id⟩ =
      { c with transactions := eraseTx c.transactions id,
               disputed_transactions := (id, v) :: c.disputed_transactions } := by
    simp [Client.process_transaction, hl, hactive, insertTx,
      eraseTx_of_lookup_none _ _ hheld]
  have hee : eraseTx (eraseTx c.transactions id) id = eraseTx c.transactions id :=
    eraseTx_of_lookup_none _ _ (lookupTx_eraseTx_self _ _ hnd)
  have h2 : (c.process_transaction ⟨.dispute, cl, id⟩).process_transaction
      ⟨.resolve, cl', id⟩ =
      { c with transactions := (id, v) :: eraseTx c.transactions id } := by
    rw [h1]
    simp [Client.process_transaction, hl, lookupTx, eraseTx, insertTx, hee]
  rw [h2]
  refine ⟨?_, rfl, ?_, rfl, ?_, hl, hnoop⟩
  · intro k
    by_cases hk : k = id
    · subst hk
      simp [lookupTx, hactive]
    · rw [lookupTx, if_neg (fun hc => hk hc.symm)]
      exact lookupTx_eraseTx_ne _ _ _ hk
  · show sum_transactions ((id, v) :: eraseTx c.transactions id) = c.available
    rw [sum_transactions_cons, sum_transactions_eraseTx _ _ _ hactive, Client.available]
    ring
  · show sum_transactions ((id, v) :: eraseTx c.transactions id)
      + sum_transactions c.disputed_transactions = c.total
    rw [sum_transactions_cons, sum_transactions_eraseTx _ _ _ hactive, Client.total]
    ring

/-- Concrete account used for the C5 witness: deposits of 1.5 at id 1 and
2.5 at id 2, nothing under dispute. -/
def clientW5 : Client :=
  { id := 1337, transactions := [(1, .deposit 15000), (2, .deposit 25000)],
    disputed_transactions := [], locked := false }

/-- Witness for the amended C5 at a concrete account. -/
theorem dispute_resolve_roundtrip_witness :
    clientW5.locked = false ∧
    lookupTx clientW5.transactions 1 = some (.deposit 15000) ∧
    lookupTx clientW5.disputed_transactions 1 = none ∧
    keysNodup clientW5.transactions ∧
    ((∀ k, lookupTx ((clientW5.process_transaction ⟨.dispute, 1337, 1⟩).process_transaction
        ⟨.resolve, 1337, 1⟩).transactions k = lookupTx clientW5.transactions k) ∧
      ((clientW5.process_transaction ⟨.dispute, 1337, 1⟩).process_transaction
        ⟨.resolve, 1337, 1⟩).disputed_transactions = clientW5.disputed_transactions ∧
      ((clientW5.process_transaction ⟨.dispute, 1337, 1⟩).process_transaction
        ⟨.resolve, 1337, 1⟩).available = clientW5.available ∧
      ((clientW5.process_transaction ⟨.dispute, 1337, 1⟩).process_transaction
        ⟨.resolve, 1337, 1⟩).hold = clientW5.hold ∧
      ((clientW5.process_transaction ⟨.dispute, 1337, 1⟩).process_transaction
        ⟨.resolve, 1337, 1⟩).total = clientW5.total ∧
      ((clientW5.process_transaction ⟨.dispute, 1337, 1⟩).process_transaction
        ⟨.resolve, 1337, 1⟩).locked = false ∧
      ∀ (d : Client) (cl2 : ClientId) (id2 : TransactionId),
        lookupTx d.disputed_transactions id2 = none →
        d.process_transaction ⟨.resolve, cl2, id2⟩ = d) :=
  ⟨rfl, rfl, rfl, by decide,
    dispute_resolve_roundtrip clientW5 1337 1337 1 (.deposit 15000) rfl rfl rfl (by decide)⟩

/-- The spec's cross-map invariant: no entry id is bound in both the active
and the disputed map at once. -/
def DisjointMaps (c : Client) : Prop :=
  ∀ k, lookupTx c.transactions k = none ∨ lookupTx c.disputed_transactions k = none

/-- Each map binds every key at most once (the `HashMap` structural fact). -/
def MapsWF (c : Client) : Prop :=
  keysNodup c.transactions ∧ keysNodup c.disputed_transactions

/-- Transaction sequence refuting C6: deposit 1.0 at id 1, dispute id 1,
then deposit 2.0 at id 1 again while it is still under dispute. -/
def dupSeqC6 : List Transaction :=
  [⟨.deposit 10000, 1, 1⟩, ⟨.dispute, 1, 1⟩, ⟨.deposit 20000, 1, 1⟩]

/-- Counterexample to C6 as stated: the state reached from a fresh account by
`dupSeqC6` binds id 1 in the active map and in the disputed map at the same
time — a deposit does not check whether its id is under dispute. -/
theorem entry_id_in_both_maps :
    lookupTx (dupSeqC6.foldl Client.process_transaction (Client.new 1)).transactions 1
      ≠ none ∧
    lookupTx (dupSeqC6.foldl Client.process_transaction
      (Client.new 1)).disputed_transactions 1 ≠ none := by
  decide

/-- Claim C6 (amended): each operation keeps every id bound at most once per
map, and preserves the disjointness of the two maps provided a deposit or a
successful withdrawal (one passing the funds check) does not reuse an id
currently under dispute; a withdrawal rejected for insufficient funds is a
no-op and needs no proviso. -/
theorem process_transaction_preserves_invariant (c : Client) (t : Transaction)
    (hwf : MapsWF c) (hdisj : DisjointMaps c)
    (hfresh : ∀ a : Amount,
      (t.transaction_details = .deposit a ∨
        (t.transaction_details = .withdrawal a ∧ ¬ c.available < a)) →
      lookupTx c.disputed_transactions t.transaction_id = none) :
    MapsWF (c.process_transaction t) ∧ DisjointMaps (c.process_transaction t) := by
  obtain ⟨td, cl, id⟩ := t
  cases hl : c.locked with
  | true =>
    rw [process_transaction_locked c _ hl]
    exact ⟨hwf, hdisj⟩
  | false =>
    cases td with
    | deposit a =>
      have h1 : c.process_transaction ⟨.deposit a, cl, id⟩ =
          { c with transactions := insertTx c.transactions id (.deposit a) } := by
        simp [Client.process_transaction, hl]
      rw [h1]
      refine ⟨⟨keysNodup_insertTx _ _ _ hwf.1, hwf.2⟩, fun k => ?_⟩
      by_cases hk : k = id
      · subst hk
        exact Or.inr (hfresh a (Or.inl rfl))
      · rw [lookupTx_insertTx_ne _ _ _ _ hk]
        exact hdisj k
    | withdrawal a =>
      by_cases hb : c.available < a
      · have h1 : c.process_transaction ⟨.withdrawal a, cl, id⟩ = c := by
          simp [Client.process_transaction, hl, hb]
        rw [h1]
        exact ⟨hwf, hdisj⟩
      · have h1 : c.process_transaction ⟨.withdrawal a, cl, id⟩ =
            { c with transactions := insertTx c.transactions id (.withdrawal a) } := by
          simp [Client.process_transaction, hl, hb]
        rw [h1]
        refine ⟨⟨keysNodup_insertTx _ _ _ hwf.1, hwf.2⟩, fun k => ?_⟩
        by_cases hk : k = id
        · subst hk
          exact Or.inr (hfresh a (Or.inr ⟨rfl, hb⟩))
        · rw [lookupTx_insertTx_ne _ _ _ _ hk]
          exact hdisj k
    | dispute =>
      cases hfound : lookupTx c.transactions id with
      | none =>
        have h1 : c.process_transaction ⟨.dispute, cl, id⟩ = c := by
          simp [Client.process_transaction, hl, hfound]
        rw [h1]
        exact ⟨hwf, hdisj⟩
      | some v =>
        have h1 : c.process_transaction ⟨.dispute, cl, id⟩ =
            { c with transactions := eraseTx c.transactions id,
                     disputed_transactions := insertTx c.disputed_transactions id v } := by
          simp [Client.process_transaction, hl, hfound]
        rw [h1]
        refine ⟨⟨keysNodup_eraseTx _ _ hwf.1, keysNodup_insertTx _ _ _ hwf.2⟩, fun k => ?_⟩
        by_cases hk : k = id
        · subst hk
          exact Or.inl (lookupTx_eraseTx_self _ _ hwf.1)
        · rw [lookupTx_eraseTx_ne _ _ _ hk, lookupTx_insertTx_ne _ _ _ _ hk]
          exact hdisj k
    | resolve =>
      cases hfound : lookupTx c.disputed_transactions id with
      | none =>
        have h1 : c.process_transaction ⟨.resolve, cl, id⟩ = c := by
          simp [Client.process_transaction, hl, hfound]
        rw [h1]
        exact ⟨hwf, hdisj⟩
      | some v =>
        have h1 : c.process_transaction ⟨.resolve, cl, id⟩ =
            { c with transactions := insertTx c.transactions id v,
                     disputed_transactions := eraseTx c.disputed_transactions id } := by
          simp [Client.process_transaction, hl, hfound]
        rw [h1]
        refine ⟨⟨keysNodup_insertTx _ _ _ hwf.1, keysNodup_eraseTx _ _ hwf.2⟩, fun k => ?_⟩
        by_cases hk : k = id
        · subst hk
          exact Or.inr (lookupTx_eraseTx_self _ _ hwf.2)
        · rw [lookupTx_eraseTx_ne _ _ _ hk, lookupTx_insertTx_ne _ _ _ _ hk]
          exact hdisj k
    | chargeback =>
      cases hfound : lookupTx c.disputed_transactions id with
      | none =>
        have h1 : c.process_transaction ⟨.chargeback, cl, id⟩ = c := by
          simp [Client.process_transaction, hl, hfound]
        rw [h1]
        exact ⟨hwf, hdisj⟩
      | some v =>
        have h1 : c.process_transaction ⟨.chargeback, cl, id⟩ =
            { c with disputed_transactions := eraseTx c.disputed_transactions id,
                     locked := true } := by
          simp [Client.process_transaction, hl, hfound]
        rw [h1]
        refine ⟨⟨hwf.1, keysNodup_eraseTx _ _ hwf.2⟩, fun k => ?_⟩
        by_cases hk : k = id
        · subst hk
          exact Or.inr (lookupTx_eraseTx_self _ _ hwf.2)
        · rw [lookupTx_eraseTx_ne _ _ _ hk]
          exact hdisj k

/-- Concrete account used for the C6 witness. -/
def clientW6 : Client :=
  { id := 1, transactions := [(1, .deposit 10000)], disputed_transactions := [],
    locked := false }

/-- Witness for the amended C6: a fresh deposit on a concrete well-formed
account preserves the invariant. -/
theorem process_transaction_preserves_invariant_witness :
    MapsWF clientW6 ∧ DisjointMaps clientW6 ∧
    (∀ a : Amount,
      ((⟨.deposit 5000, 1, 2⟩ : Transaction).transaction_details = .deposit a ∨
        ((⟨.deposit 5000, 1, 2⟩ : Transaction).transaction_details = .withdrawal a ∧
          ¬ clientW6.available < a)) →
      lookupTx clientW6.disputed_transactions
        (⟨.deposit 5000, 1, 2⟩ : Transaction).transaction_id = none) ∧
    (MapsWF (clientW6.process_transaction ⟨.deposit 5000, 1, 2⟩) ∧
      DisjointMaps (clientW6.process_transaction ⟨.deposit 5000, 1, 2⟩)) :=
  ⟨⟨by decide, by decide⟩, fun _ => Or.inr rfl, fun _ _ => rfl,
    process_transaction_preserves_invariant clientW6 ⟨.deposit 5000, 1, 2⟩
      ⟨by decide, by decide⟩ (fun _ => Or.inr rfl) (fun _ _ => rfl)⟩

/-- Transaction sequence leading to the state refuting C8: a withdrawal is
stored at id 1 while an older deposit at id 1 is already under dispute. -/
def dupSeqC8 : List Transaction :=
  [⟨.deposit 30000, 1, 2⟩, ⟨.deposit 5000, 1, 1⟩, ⟨.dispute, 1, 1⟩,
    ⟨.withdrawal 10000, 1, 1⟩]

/-- The reachable account state refuting C8. -/
def clientC8x : Client :=
  dupSeqC8.foldl Client.process_transaction (Client.new 1)

/-- Counterexample to C8 as stated: on this unlocked, reachable account whose
active map holds a withdrawal at id 1, disputing id 1 changes `total` (the
dispute overwrites the deposit already held at id 1), contradicting the
claimed `total` preservation. -/
theorem dispute_withdrawal_changes_total_on_shared_id :
    clientC8x.locked = false ∧
    lookupTx clientC8x.transactions 1 = some (.withdrawal 10000) ∧
    (clientC8x.process_transaction ⟨.dispute, 1, 1⟩).total ≠ clientC8x.total := by
  decide

/-- Claim C8 (amended): on an unlocked account whose active map has unique
keys, holds a withdrawal of amount `a` at the id, and whose disputed map does
not hold that id, disputing the id removes the withdrawal from the active
map, increases `available` by `a`, decreases `hold` by `a` and leaves `total`
unchanged. -/
theorem dispute_withdrawal_increases_available (c : Client) (cl : ClientId)
    (id : TransactionId) (a : Amount) (hl : c.locked = false)
    (hfound : lookupTx c.transactions id = some (.withdrawal a))
    (hheld : lookupTx c.disputed_transactions id = none)
    (hnd : keysNodup c.transactions) :
    lookupTx (c.process_transaction ⟨.dispute, cl, id⟩).transactions id = none ∧
    (c.process_transaction ⟨.dispute, cl, id⟩).available = c.available + a ∧
    (c.process_transaction ⟨.dispute, cl, id⟩).hold = c.hold - a ∧
    (c.process_transaction ⟨.dispute, cl, id⟩).total = c.total := by
  have h1 : c.process_transaction ⟨.dispute, cl, id⟩ =
      { c with transactions := eraseTx c.transactions id,
               disputed_transactions := (id, .withdrawal a) :: c.disputed_transactions } := by
    simp [Client.process_transaction, hl, hfound, insertTx,
      eraseTx_of_lookup_none _ _ hheld]
  rw [h1]
  refine ⟨lookupTx_eraseTx_self _ _ hnd, ?_, ?_, ?_⟩
  · show sum_transactions (eraseTx c.transactions id) = c.available + a
    rw [sum_transactions_eraseTx _ _ _ hfound, Client.available, signedValue]
    ring
  · show sum_transactions ((id, .withdrawal a) :: c.disputed_transactions) = c.hold - a
    rw [sum_transactions_cons, Client.hold, signedValue]
    ring
  · show sum_transactions (eraseTx c.transactions id)
      + sum_transactions ((id, .withdrawal a) :: c.disputed_transactions) = c.total
    rw [sum_transactions_eraseTx _ _ _ hfound, sum_transactions_cons, Client.total,
      signedValue]
    ring

/-- Concrete account used for the C8 witness: a stored withdrawal of 1.0 at
id 1 next to a deposit of 3.0 at id 2, nothing under dispute. -/
def clientW8 : Client :=
  { id := 1, transactions := [(1, .withdrawal 10000), (2, .deposit 30000)],
    disputed_transactions := [], locked := false }

/-- Witness for the amended C8 at a concrete stored withdrawal. -/
theorem dispute_withdrawal_increases_available_witness :
    clientW8.locked = false ∧
    lookupTx clientW8.transactions 1 = some (.withdrawal 10000) ∧
    lookupTx clientW8.disputed_transactions 1 = none ∧
    keysNodup clientW8.transactions ∧
    (lookupTx (clientW8.process_transaction ⟨.dispute, 1, 1⟩).transactions 1 = none ∧
      (clientW8.process_transaction ⟨.dispute, 1, 1⟩).available
        = clientW8.available + 10000 ∧
      (clientW8.process_transaction ⟨.dispute, 1, 1⟩).hold = clientW8.hold - 10000 ∧
      (clientW8.process_transaction ⟨.dispute, 1, 1⟩).total = clientW8.total) :=
  ⟨rfl, rfl, rfl, by decide,
    dispute_withdrawal_increases_available clientW8 1 1 10000 rfl rfl rfl (by decide)⟩

/-- Claim C10: on an unlocked account, a deposit — or a withdrawal that
passes the funds check — whose id is already bound in the active map silently
replaces the stored entry: the id is now bound to the new entry, all other
ids are untouched, and the old entry's signed amount is swapped for the new
one in `available`. -/
theorem insert_overwrites_existing_id (c : Client) (cl : ClientId) (id : TransactionId)
    (a : Amount) (old : TransactionDetails) (hl : c.locked = false)
    (hprev : lookupTx c.transactions id = some old) :
    (lookupTx (c.process_transaction ⟨.deposit a, cl, id⟩).transactions id
        = some (.deposit a) ∧
      (∀ k, k ≠ id → lookupTx (c.process_transaction ⟨.deposit a, cl, id⟩).transactions k
        = lookupTx c.transactions k) ∧
      (c.process_transaction ⟨.deposit a, cl, id⟩).available
        = c.available - signedValue old + a) ∧
    (¬ c.available < a →
      lookupTx (c.process_transaction ⟨.withdrawal a, cl, id⟩).transactions id
        = some (.withdrawal a) ∧
      (∀ k, k ≠ id → lookupTx (c.process_transaction ⟨.withdrawal a, cl, id⟩).transactions k
        = lookupTx c.transactions k) ∧
      (c.process_transaction ⟨.withdrawal a, cl, id⟩).available
        = c.available - signedValue old - a) := by
  constructor
  · have h1 : c.process_transaction ⟨.deposit a, cl, id⟩ =
        { c with transactions := insertTx c.transactions id (.deposit a) } := by
      simp [Client.process_transaction, hl]
    rw [h1]
    refine ⟨lookupTx_insertTx_self _ _ _, fun k hk => lookupTx_insertTx_ne _ _ _ _ hk, ?_⟩
    show sum_transactions (insertTx c.transactions id (.deposit a))
      = c.available - signedValue old + a
    rw [sum_transactions_insertTx, sum_transactions_eraseTx _ _ _ hprev, Client.available]
    show signedValue (.deposit a) + _ = _
    rw [signedValue]
    ring
  · intro hb
    have h1 : c.process_transaction ⟨.withdrawal a, cl, id⟩ =
        { c with transactions := insertTx c.transactions id (.withdrawal a) } := by
      simp [Client.process_transaction, hl, hb]
    rw [h1]
    refine ⟨lookupTx_insertTx_self _ _ _, fun k hk => lookupTx_insertTx_ne _ _ _ _ hk, ?_⟩
    show sum_transactions (insertTx c.transactions id (.withdrawal a))
      = c.available - signedValue old - a
    rw [sum_transactions_insertTx, sum_transactions_eraseTx _ _ _ hprev, Client.available]
    show signedValue (.withdrawal a) + _ = _
    rw [signedValue]
    ring

/-- Concrete account used for the C10 witness: a deposit of 2.0 stored at
id 1. -/
def clientW10 : Client :=
  { id := 1, transactions := [(1, .deposit 20000)], disputed_transactions := [],
    locked := false }

/-- Witness for C10: re-depositing 0.5 at the occupied id 1 replaces the
stored 2.0 deposit. -/
theorem insert_overwrites_existing_id_witness :
    clientW10.locked = false ∧
    lookupTx clientW10.transactions 1 = some (.deposit 20000) ∧
    ((lookupTx (clientW10.process_transaction ⟨.deposit 5000, 1, 1⟩).transactions 1
        = some (.deposit 5000) ∧
      (∀ k, k ≠ 1 → lookupTx (clientW10.process_transaction
        ⟨.deposit 5000, 1, 1⟩).transactions k = lookupTx clientW10.transactions k) ∧
      (clientW10.process_transaction ⟨.deposit 5000, 1, 1⟩).available
        = clientW10.available - signedValue (.deposit 20000) + 5000) ∧
    (¬ clientW10.available < 5000 →
      lookupTx (clientW10.process_transaction ⟨.withdrawal 5000, 1, 1⟩).transactions 1
        = some (.withdrawal 5000) ∧
      (∀ k, k ≠ 1 → lookupTx (clientW10.process_transaction
        ⟨.withdrawal 5000, 1, 1⟩).transactions k = lookupTx clientW10.transactions k) ∧
      (clientW10.process_transaction ⟨.withdrawal 5000, 1, 1⟩).available
        = clientW10.available - signedValue (.deposit 20000) - 5000)) :=
  ⟨rfl, rfl, insert_overwrites_existing_id clientW10 1 1 5000 (.deposit 20000) rfl rfl⟩

theorem process_rows_stops_at_first_bad (good : List CsvRow) (bad : CsvRow) (msg : String)
    (hgood : ∀ r ∈ good, rowError r = none) (hbad : rowError bad = some msg) :
    ∀ (rest : List CsvRow) (b : Bank) (line : Nat),
      Bank.process_rows b (good ++ bad :: rest) line =
        .error (.fileTransaction (line + good.length) msg) := by
  induction good with
  | nil =>
    intro rest b line
    cases bad with
    | error m =>
      rw [rowError] at hbad
      injection hbad with hm
      subst hm
      simp [Bank.process_rows]
    | ok record =>
      rw [rowError] at hbad
      cases htf : Transaction.tryFrom record with
      | ok t =>
        rw [htf] at hbad
        simp at hbad
      | error m =>
        rw [htf] at hbad
        injection hbad with hm
        subst hm
        simp [Bank.process_rows, htf]
  | cons r rs ih =>
    intro rest b line
    have hr := hgood r (List.mem_cons_self r rs)
    cases r with
    | error m =>
      rw [rowError] at hr
      exact absurd hr (by simp)
    | ok record =>
      rw [rowError] at hr
      cases htf : Transaction.tryFrom record with
      | error m =>
        rw [htf] at hr
        simp at hr
      | ok t =>
        have hrec : Bank.process_rows b ((Except.ok record :: rs) ++ bad :: rest) line =
            Bank.process_rows (b.process_transaction t) (rs ++ bad :: rest) (line + 1) := by
          simp [Bank.process_rows, htf]
        rw [hrec, ih (fun r' hr' => hgood r' (List.mem_cons_of_mem _ hr')) rest
          (b.process_transaction t) (line + 1)]
        have : line + 1 + rs.length = line + (rs.length + 1) := by omega
        rw [this]
        rfl

/-- Claim C9: if every row before position `i` converts to a transaction and
the row at `i` is malformed (the reader rejects it) or fails conversion
(unknown type / wrong amount shape), then `process_file` returns
`FileTransaction(i, msg)` for that row's message, whatever rows follow — so
the rows after the malformed one are never applied and no snapshot is
produced. -/
theorem process_file_stops_at_first_malformed_row (b : Bank) (good : List CsvRow)
    (bad : CsvRow) (rest : List CsvRow) (msg : String)
    (hgood : ∀ r ∈ good, rowError r = none) (hbad : rowError bad = some msg) :
    b.process_file (good ++ bad :: rest) = .error (.fileTransaction good.length msg) := by
  rw [Bank.process_file, process_rows_stops_at_first_bad good bad msg hgood hbad rest b 0,
    Nat.zero_add]

/-- Good rows preceding the malformed one in the C9 witness. -/
def goodRowsW : List CsvRow :=
  [.ok ⟨"deposit", 1, 1, some 10000⟩, .ok ⟨"Withdrawal", 1, 2, some 5000⟩]

/-- The malformed row of the C9 witness: a deposit with no amount field. -/
def badRowW : CsvRow := .ok ⟨"deposit", 1, 3, none⟩

/-- Rows after the malformed one in the C9 witness; they are never applied. -/
def restRowsW : List CsvRow := [.ok ⟨"deposit", 1, 4, some 70000⟩]

/-- Witness for C9: the batch aborts at row index 2 with the conversion
error's message. -/
theorem process_file_stops_at_first_malformed_row_witness :
    (∀ r ∈ goodRowsW, rowError r = none) ∧
    rowError badRowW = some "Unknown transaction type: deposit, amount: None" ∧
    Bank.process_file ⟨[]⟩ (goodRowsW ++ badRowW :: restRowsW) =
      .error (.fileTransaction goodRowsW.length
        "Unknown transaction type: deposit, amount: None") :=
  ⟨by decide, by decide,
    process_file_stops_at_first_malformed_row ⟨[]⟩ goodRowsW badRowW restRowsW
      "Unknown transaction type: deposit, amount: None" (by decide) (by decide)⟩

end Transactions
